import Mathlib

/-!
Verification development for the quieromudarme housing-watch pipeline
(src/api/quieromudarme). The Python sources are shallowly embedded:

* `providers/types.py` → `Currency`, `ProviderName`, `HousingPost`;
* `etl.py` → `store_housing_posts`, `etl_housing_for_search`,
  `etlLoop` / `etl_housing_for_all_searches`;
* `notifier.py` → `selectedWatches`, `notify_new_revisions`;
* `chatbot/bot.py` → `price_str`, `sanitize_str_for_tg`,
  `bren_special_alert`, `updatedEntryMsg`, `notify_updated_housing`.

The EdgeQL database layer (module `quieromudarme.db`, dbschema) is not among
the sources; the operations that live there (`upsert_housing_from_search`,
`upsert_watches_for_search`, `update_notified_housing_watches`) are modelled
from the spec, as marked on each definition.

Prices are decimals in the source; the behaviour under scrutiny depends only
on exact (price, currency) equality, the zero test and the integer thousands
formatting, which `Nat` carries faithfully. Timestamps are integer minutes.
-/

namespace QM

/-- Currency codes (providers/types.py `Currency`). -/
inductive Currency
  | USD
  | ARS
  | EUR
deriving DecidableEq, Repr

/-- The 3-letter code a currency renders as. -/
def Currency.code : Currency → String
  | .USD => "USD"
  | .ARS => "ARS"
  | .EUR => "EUR"

/-- Provider identities (providers/types.py `ProviderName`). -/
inductive ProviderName
  | zonaprop
  | mercadolibre
  | airbnb
deriving DecidableEq, Repr

/-- A normalized post from a provider (providers/types.py `HousingPost`);
only the fields the claims touch are carried. -/
structure HousingPost where
  provider : ProviderName
  post_id : String
  url : String
  title : String
  price : Nat
  price_currency : Currency
deriving DecidableEq, Repr

/-- Post ids of a batch, in order. -/
def postIds (posts : List HousingPost) : List String :=
  posts.map (fun p => p.post_id)

/-- One step of the Python dict comprehension
`{post.post_id: post for post in posts}`: a repeated key overwrites the stored
value in place (last value wins), a fresh key is appended. -/
def insertByPostId (acc : List HousingPost) (p : HousingPost) : List HousingPost :=
  if acc.any (fun q => q.post_id == p.post_id) then
    acc.map (fun q => if q.post_id == p.post_id then p else q)
  else
    acc ++ [p]

/-- `list({post.post_id: post for post in posts}.values())` (etl.py:50). -/
def dedupPosts (posts : List HousingPost) : List HousingPost :=
  posts.foldl insertByPostId []

/-- The duplicate-warning condition of etl.py:43-48:
`len({post.post_id for post in posts}) != len(posts)`. -/
def dupWarning (posts : List HousingPost) : Bool :=
  (postIds posts).dedup.length != posts.length

/-- The last post of the batch carrying a given post id, if any. -/
def lastOcc (posts : List HousingPost) (i : String) : Option HousingPost :=
  match posts with
  | [] => none
  | p :: ps =>
    match lastOcc ps i with
    | some q => some q
    | none => if p.post_id == i then some p else none

/-- Lookup of a batch entry by post id (first match). -/
def findById (posts : List HousingPost) (i : String) : Option HousingPost :=
  posts.find? (fun p => p.post_id == i)

/-! ## The revision store (Revision Engine state) -/

/-- An immutable price/currency snapshot of a housing. Modelled from the spec:
the revision rows materialized by the EdgeQL `upsert_housing_from_search`,
which is not among the sources (spec §3 Revision). -/
structure Revision where
  rid : Nat
  price : Nat
  currency : Currency
deriving DecidableEq, Repr

/-- A stored, deduplicated housing with its revision history, newest revision
first. Modelled from the spec (§3 Listing): the dbschema is not among the
sources. -/
structure StoredHousing where
  provider : ProviderName
  post_id : String
  title : String
  url : String
  revisions : List Revision
deriving DecidableEq, Repr

/-- A HousingWatch row joining a search to a housing (spec §3 Watch). -/
structure HousingWatch where
  search_id : Nat
  provider : ProviderName
  post_id : String
  last_refreshed_at : Int
  notified_revision_id : Option Nat
  current_revision_id : Nat
deriving DecidableEq, Repr

/-- The persistent store as the Revision Engine sees it. -/
structure Store where
  housings : List StoredHousing
  watches : List HousingWatch
  next_rid : Nat
deriving DecidableEq, Repr

/-- Per-post result row returned by the housing upsert (etl.py consumes
`.id`, `.is_new`, `.added_revision`); the housing is identified by its
(provider, post id) key, and `prev_rid` records the pre-update current
revision for the watch upsert. -/
structure UpsertResult where
  provider : ProviderName
  post_id : String
  is_new : Bool
  added_revision : Bool
  current_rid : Nat
  prev_rid : Option Nat
deriving DecidableEq, Repr

/-- The current revision of a housing: the most recent one. -/
def currentRevision (h : StoredHousing) : Option Revision :=
  h.revisions.head?

/-- Whether a stored housing is the one a post refers to. -/
def keyMatch (h : StoredHousing) (p : HousingPost) : Bool :=
  h.provider == p.provider && h.post_id == p.post_id

/-- Modelled from the spec: one post's pass of the EdgeQL
`upsert_housing_from_search` (spec §4.2 steps 1-3): look the housing up by
(provider, source post id), create it when absent (`is_new`), refresh its
metadata unconditionally when present, and append a new revision exactly when
(price, currency) differ from the current revision or no revision exists
(`added_revision`); per spec §8, `added_revision` is false for a brand-new
housing. -/
def upsertHousingPost (st : Store) (p : HousingPost) : Store × UpsertResult :=
  match st.housings.find? (fun h => keyMatch h p) with
  | none =>
    let r : Revision := ⟨st.next_rid, p.price, p.price_currency⟩
    let h : StoredHousing := ⟨p.provider, p.post_id, p.title, p.url, [r]⟩
    (⟨st.housings ++ [h], st.watches, st.next_rid + 1⟩,
     ⟨p.provider, p.post_id, true, false, r.rid, none⟩)
  | some h =>
    match currentRevision h with
    | none =>
      let r : Revision := ⟨st.next_rid, p.price, p.price_currency⟩
      let h2 : StoredHousing :=
        { h with title := p.title, url := p.url, revisions := r :: h.revisions }
      (⟨st.housings.map (fun h0 => if keyMatch h0 p then h2 else h0),
        st.watches, st.next_rid + 1⟩,
       ⟨p.provider, p.post_id, false, true, r.rid, none⟩)
    | some cur =>
      if cur.price == p.price && cur.currency == p.price_currency then
        let h2 : StoredHousing := { h with title := p.title, url := p.url }
        (⟨st.housings.map (fun h0 => if keyMatch h0 p then h2 else h0),
          st.watches, st.next_rid⟩,
         ⟨p.provider, p.post_id, false, false, cur.rid, some cur.rid⟩)
      else
        let r : Revision := ⟨st.next_rid, p.price, p.price_currency⟩
        let h2 : StoredHousing :=
          { h with title := p.title, url := p.url, revisions := r :: h.revisions }
        (⟨st.housings.map (fun h0 => if keyMatch h0 p then h2 else h0),
          st.watches, st.next_rid + 1⟩,
         ⟨p.provider, p.post_id, false, true, r.rid, some cur.rid⟩)

/-- Modelled from the spec: the batch housing upsert
(`db.upsert_housing_from_search`, etl.py:64), one pass per post in order. -/
def upsert_housing_from_search (st : Store) (posts : List HousingPost) :
    Store × List UpsertResult :=
  posts.foldl
    (fun acc p =>
      let step := upsertHousingPost acc.1 p
      (step.1, acc.2 ++ [step.2]))
    (st, [])

/-- Modelled from the spec: one housing's pass of the EdgeQL
`upsert_watches_for_search` (spec §4.2 steps 4-5): upsert the watch row for
(this search, this housing); when it does not exist, create it pointing at the
current revision when `as_notified` is requested and at the pre-update
revision otherwise; either way set `last_refreshed_at` and
`current_revision_id`. -/
def upsertWatchOne (watches : List HousingWatch) (search_id : Nat) (u : UpsertResult)
    (refreshed_at : Int) (as_notified : Bool) : List HousingWatch :=
  if watches.any (fun w =>
      w.search_id == search_id && w.provider == u.provider && w.post_id == u.post_id) then
    watches.map (fun w =>
      if w.search_id == search_id && w.provider == u.provider && w.post_id == u.post_id then
        { w with last_refreshed_at := refreshed_at, current_revision_id := u.current_rid }
      else w)
  else
    watches ++ [⟨search_id, u.provider, u.post_id, refreshed_at,
      if as_notified then some u.current_rid else u.prev_rid, u.current_rid⟩]

/-- Modelled from the spec: the batch watch upsert
(`db.upsert_watches_for_search`, etl.py:70-76), one pass per upserted
housing. -/
def upsert_watches_for_search (watches : List HousingWatch) (search_id : Nat)
    (results : List UpsertResult) (refreshed_at : Int) (as_notified : Bool) :
    List HousingWatch :=
  results.foldl
    (fun ws u => upsertWatchOne ws search_id u refreshed_at as_notified)
    watches

/-- A HousingSearch row as etl.py consumes it. -/
structure SearchRow where
  id : Nat
  provider : ProviderName
  url : String
  created_at : Int
  last_search_at : Option Int
  user_telegram_id : Int
deriving DecidableEq, Repr

/-- What one `store_housing_posts` call produces. -/
structure StoreOutcome where
  store : Store
  results : List UpsertResult
  n_new_stuff : Nat
  warned : Bool
deriving DecidableEq, Repr

/-- etl.py `store_housing_posts`: warn and dedup by post id when the batch
holds duplicates (lines 43-50), upsert housings and their revisions (line 64),
upsert the watches for the search (lines 70-76), and return the total of new
housings plus new revisions (lines 79-97). -/
def store_housing_posts (st : Store) (posts : List HousingPost) (search : SearchRow)
    (refreshed_at : Int) (as_notified : Bool) : StoreOutcome :=
  let warned := dupWarning posts
  let posts2 := if warned then dedupPosts posts else posts
  let up := upsert_housing_from_search st posts2
  let ws := upsert_watches_for_search up.1.watches search.id up.2 refreshed_at as_notified
  let n := (up.2.filter (fun u => u.added_revision)).length
    + (up.2.filter (fun u => u.is_new)).length
  ⟨⟨up.1.housings, ws, up.1.next_rid⟩, up.2, n, warned⟩

/-- etl.py `etl_housing_for_search`: fetch the latest posts for the search
(a fetch failure raises, modelled as `Except.error`), mark the batch
`as_notified` exactly when the search has never been run
(`search.last_search_at is None`, lines 116-118), and store it. -/
def etl_housing_for_search (fetch : SearchRow → Except String (List HousingPost))
    (now : Int) (search : SearchRow) (st : Store) : Except String StoreOutcome :=
  match fetch search with
  | .error e => .error e
  | .ok posts =>
    .ok (store_housing_posts st posts search now search.last_search_at.isNone)

/-- The state threaded through the ETL loop of
`etl_housing_for_all_searches`: the store, the per-user added counters
(`n_added_per_user`) and the collected per-search errors. -/
structure EtlOutcome where
  store : Store
  n_added_per_user : List (Int × Nat)
  errors : List String
deriving DecidableEq, Repr

/-- `defaultdict(int)` update: `n_added_per_user[tid] += n`. -/
def addCount (l : List (Int × Nat)) (tid : Int) (n : Nat) : List (Int × Nat) :=
  if l.any (fun e => e.1 == tid) then
    l.map (fun e => if e.1 == tid then (e.1, e.2 + n) else e)
  else l ++ [(tid, n)]

/-- The loop body of etl.py:153-165: process one search, catching any
exception and recording it in the aggregate instead of aborting the loop. -/
def etlStep (fetch : SearchRow → Except String (List HousingPost)) (now : Int)
    (acc : EtlOutcome) (s : SearchRow) : EtlOutcome :=
  match etl_housing_for_search fetch now s acc.store with
  | .error e => { acc with errors := acc.errors ++ [e] }
  | .ok out =>
    { acc with
      store := out.store
      n_added_per_user := addCount acc.n_added_per_user s.user_telegram_id out.n_new_stuff }

/-- The search loop of etl.py:153-165. -/
def etlLoop (fetch : SearchRow → Except String (List HousingPost)) (now : Int)
    (st : Store) (searches : List SearchRow) : EtlOutcome :=
  searches.foldl (etlStep fetch now) ⟨st, [], []⟩

/-- The creation grace window: 10 minutes (etl.py:142, notifier.py:30). -/
def gracePeriodMinutes : Int := 10

/-- The search filters of etl.py:141-150: keep only searches created at least
10 minutes ago, and, when a `start_delta` is given, only those never run or
last run before `now - start_delta`. -/
def filterSearches (now : Int) (start_delta : Option Int)
    (searches : List SearchRow) : List SearchRow :=
  let s1 := searches.filter (fun s => s.created_at < now - gracePeriodMinutes)
  match start_delta with
  | none => s1
  | some d =>
    s1.filter (fun s =>
      match s.last_search_at with
      | none => true
      | some t => t < now - d)

/-- The aggregate error raised at etl.py:171-173. -/
structure QMError where
  message : String
  errors : List String
deriving DecidableEq, Repr

/-- etl.py `etl_housing_for_all_searches`: filter the searches, run the loop,
and raise a `QMError` aggregating the per-search errors whenever any
occurred (lines 171-173). The first component is the state the run leaves
behind (db writes are committed even when the run raises); the second is
`some` exactly when the function raises to its caller. -/
def etl_housing_for_all_searches (fetch : SearchRow → Except String (List HousingPost))
    (now : Int) (start_delta : Option Int) (searches : List SearchRow) (st : Store) :
    EtlOutcome × Option QMError :=
  let o := etlLoop fetch now st (filterSearches now start_delta searches)
  (o, if o.errors.isEmpty then none
      else some ⟨toString o.errors.length ++ " errors during ETL", o.errors⟩)

/-! ## Notifier (notifier.py `notify_new_revisions`) and message composition
(chatbot/bot.py) -/

/-- A revision as the notifier queries see it. -/
structure RevisionRef where
  rid : Nat
  price : Nat
  currency : Currency
deriving DecidableEq, Repr

/-- The housing fields the notification messages use (bot.py). The result of
the floor regex of `bren_special_alert` over the housing's title and
description is abstracted by its output, carried in `floor_match`. -/
structure HousingInfo where
  provider : ProviderName
  title : Option String
  url : String
  post_modified_at : Option Int
  whatsapp_phone_number : Option String
  floor_match : Option String
deriving DecidableEq, Repr

/-- One pending watch as returned per user by
`db.get_updated_housing_watches_to_notify`. -/
structure WatchItem where
  wid : Nat
  search_created_at : Int
  search_url : String
  housing : HousingInfo
  old_revision : RevisionRef
  current_revision : RevisionRef
deriving DecidableEq, Repr

/-- A user as the notifier sees it. -/
structure UserRec where
  telegram_id : Int
  telegram_username : Option String
deriving DecidableEq, Repr

/-- One per-user group of pending watches. -/
structure UserWatches where
  user : UserRec
  watches : List WatchItem
deriving DecidableEq, Repr

/-- constants.py `MAX_NOTIFS_IN_UPDATE_PER_USER`. -/
def MAX_NOTIFS_IN_UPDATE_PER_USER : Nat := 5

/-- Comma-group a digit list given least-significant first. -/
def commaGroupRev : List Char → List Char
  | a :: b :: c :: d :: rest => a :: b :: c :: ',' :: commaGroupRev (d :: rest)
  | l => l

/-- The Python format `f"{n:,.0f}"` on a whole number: decimal digits with a
thousands separator every three digits. -/
def formatThousands (n : Nat) : String :=
  String.mk (commaGroupRev (Nat.toDigits 10 n).reverse).reverse

/-- bot.py `_price_str` (lines 68-75): "Consultar" for a zero price, else the
thousands-separated amount with its currency code, bolded by default. -/
def price_str (revision : RevisionRef) (bold : Bool) : String :=
  if revision.price == 0 then "Consultar"
  else
    let s := "$ " ++ formatThousands revision.price ++ " " ++ revision.currency.code
    if bold then "**" ++ s ++ "**" else s

/-- The Markdown delimiter characters stripped by `sanitize_str_for_tg`
(the regex class of asterisk, underscore, backtick, tilde, backslash). -/
def mdDelims : List Char := ['*', '_', Char.ofNat 96, '~', '\\']

/-- bot.py `sanitize_str_for_tg`. -/
def sanitize_str_for_tg (s : Option String) : String :=
  match s with
  | none => "Propiedad sin nombre"
  | some s => String.mk (s.data.filter (fun c => !(mdDelims.contains c)))

/-- bot.py `_last_modified_dt_str`; the timezone conversion and strftime
rendering of the wall-clock time are abstracted as the numeral of the
timestamp. -/
def last_modified_dt_str (dt : Option Int) : String :=
  match dt with
  | none => ""
  | some t => "__Últ. modificación: " ++ toString t ++ "__"

/-- The telegram id singled out by `bren_special_alert`. -/
def brenTgId : Int := 1962124742

/-- bot.py `bren_special_alert`: append the high-floor alert to the message
for the two special recipients when the floor regex matched (the regex is
abstracted by `housing.floor_match`). -/
def bren_special_alert (text_msg : String) (housing : HousingInfo) (user : UserRec) :
    String :=
  if user.telegram_id != brenTgId && user.telegram_username != some "martincura" then
    text_msg
  else
    match housing.floor_match with
    | some m => text_msg ++ "\n\n🚨 Piso alto?? (" ++ m ++ ") Investigarrrr"
    | none => text_msg

/-- `PRICE_OFF_PCT_THRESHOLD` (constants.py, 0.05) rendered by the Python
percent format `:.0%`. -/
def priceOffPctStr : String := "5%"

/-- The header line of an updated-housing notification (bot.py:134-145). -/
def updatedHeaderMsg (watches : List WatchItem) : String :=
  "🗞🗞🗞 " ++ toString watches.length
    ++ (if watches.length > 1 then
          " propiedades de tus búsquedas cambiaron de moneda o bajaron"
        else
          " propiedad de tus búsquedas cambió de moneda o bajó")
    ++ " de precio al menos " ++ priceOffPctStr ++ "."

/-- One watch's entry in an updated-housing notification (bot.py:146-154):
title line, then the old revision's price followed by the current revision's
price, then the modification date and the links, then the special alert. -/
def updatedEntryMsg (user : UserRec) (hw : WatchItem) : String :=
  bren_special_alert
    ("🔽 \"" ++ sanitize_str_for_tg hw.housing.title ++ "\""
      ++ "\n" ++ price_str hw.old_revision false ++ " → "
      ++ price_str hw.current_revision true
      ++ "\n" ++ last_modified_dt_str hw.housing.post_modified_at
      ++ "\n[publicación](" ++ hw.housing.url ++ ") | [búsqueda]("
      ++ hw.search_url ++ ")")
    hw.housing user

/-- What one `client.send_message` call does, as the caller observes it. -/
inductive SendResult
  | ok
  | blocked
  | err
deriving DecidableEq, Repr

/-- How a send loop ended: all messages sent, stopped early on
`UserIsBlockedError` (swallowed), or re-raised another send error. -/
inductive NotifyOutcome
  | completed
  | blockedStop
  | raised
deriving DecidableEq, Repr

/-- The send loop of bot.py:155-169: messages go out in order; a
`UserIsBlockedError` breaks the loop without raising; any other send error
re-raises. Returns the messages actually sent and how the loop ended. -/
def sendMessages (send : String → SendResult) : List String → List String × NotifyOutcome
  | [] => ([], .completed)
  | m :: ms =>
    match send m with
    | .ok =>
      let r := sendMessages send ms
      (m :: r.1, r.2)
    | .blocked => ([], .blockedStop)
    | .err => ([], .raised)

/-- bot.py `notify_updated_housing`: compose the header and one entry per
watch and send them in order (buttons ride along with each send and carry no
state). -/
def notify_updated_housing (send : Int → String → SendResult) (user : UserRec)
    (watches : List WatchItem) : List String × NotifyOutcome :=
  sendMessages (send user.telegram_id)
    (updatedHeaderMsg watches :: watches.map (updatedEntryMsg user))

/-- A watch row as `update_notified_housing_watches` touches it. -/
structure WatchRow where
  wid : Nat
  notified_revision_id : Option Nat
deriving DecidableEq, Repr

/-- `db.WatchRevisionsitem`: one (watch id, revision id) pair to mark. -/
structure WatchRevisionsitem where
  hw_id : Nat
  revision_id : Nat
deriving DecidableEq, Repr

/-- Modelled from the spec: the EdgeQL `update_notified_housing_watches`
(spec §4.3 mark-notified, not among the sources): for each (watch id,
revision id) pair set that watch's `notified_revision_id` to the revision
id. -/
def update_notified_housing_watches (rows : List WatchRow)
    (pairs : List WatchRevisionsitem) : List WatchRow :=
  rows.map (fun r =>
    match pairs.find? (fun p => p.hw_id == r.wid) with
    | some p => { r with notified_revision_id := some p.revision_id }
    | none => r)

/-- The 10-minute grace filter of notifier.py:35-37: act only on watches
whose search was created at least 10 minutes ago. -/
def filteredWatches (now : Int) (uw : UserWatches) : List WatchItem :=
  uw.watches.filter (fun w => w.search_created_at < now - gracePeriodMinutes)

/-- The watches notifier.py:32-58 ends up acting on for one user: those whose
search was created at least 10 minutes ago, truncated to the first
`MAX_NOTIFS_IN_UPDATE_PER_USER` when they are more than that. -/
def selectedWatches (now : Int) (uw : UserWatches) : List WatchItem :=
  if (filteredWatches now uw).length > MAX_NOTIFS_IN_UPDATE_PER_USER then
    (filteredWatches now uw).take MAX_NOTIFS_IN_UPDATE_PER_USER
  else filteredWatches now uw

/-- The condition under which notifier.py:47-57 raises the operator alert
(`alert_admin`) for a user. -/
def alertCondition (now : Int) (uw : UserWatches) : Bool :=
  (filteredWatches now uw).length > MAX_NOTIFS_IN_UPDATE_PER_USER

/-- What one user's pass of the notifier loop did: the recipient, whether the
operator alert was raised, the messages actually sent, and the (watch,
revision) pairs handed to `update_notified_housing_watches`. -/
structure UserLog where
  tid : Int
  alerted : Bool
  sent : List String
  pairs : List WatchRevisionsitem
deriving DecidableEq, Repr

/-- The result a notify run leaves behind: the watch rows after all marking,
the per-user logs in processing order, and whether the run re-raised a send
error (aborting the remaining users). -/
structure NotifyRunResult where
  rows : List WatchRow
  logs : List UserLog
  raised : Bool
deriving DecidableEq, Repr

/-- notifier.py `notify_new_revisions`: per user, filter the watches by the
10-minute search grace window, alert the admin and truncate beyond the cap,
send the batch (a blocked recipient stops that user's sends without raising),
and mark every watch of the (possibly truncated) batch as notified at its
current revision; a non-blocked send error propagates and aborts the run. -/
def notify_new_revisions (send : Int → String → SendResult) (now : Int) :
    List UserWatches → List WatchRow → NotifyRunResult
  | [], rows => ⟨rows, [], false⟩
  | uw :: rest, rows =>
    let watches := selectedWatches now uw
    let r := notify_updated_housing send uw.user watches
    match r.2 with
    | .raised => ⟨rows, [⟨uw.user.telegram_id, alertCondition now uw, r.1, []⟩], true⟩
    | _ =>
      let pairs := watches.map (fun w => WatchRevisionsitem.mk w.wid w.current_revision.rid)
      let rows2 := update_notified_housing_watches rows pairs
      let res := notify_new_revisions send now rest rows2
      ⟨res.rows, ⟨uw.user.telegram_id, alertCondition now uw, r.1, pairs⟩ :: res.logs,
       res.raised⟩

/-! ## Helper functions and concrete inputs used by the theorems -/

/-- The (provider, source post id) key of a post. -/
def postKey (p : HousingPost) : ProviderName × String :=
  (p.provider, p.post_id)

/-- The (provider, source post id) key of an upsert result row. -/
def resultKey (u : UpsertResult) : ProviderName × String :=
  (u.provider, u.post_id)

/-- The store component of the housing-upsert fold. -/
def upsertAllStore (st : Store) (posts : List HousingPost) : Store :=
  posts.foldl (fun s p => (upsertHousingPost s p).1) st

/-- The result rows of the housing-upsert fold, in batch order. -/
def upsertAllResults (st : Store) : List HousingPost → List UpsertResult
  | [] => []
  | p :: ps =>
    (upsertHousingPost st p).2 :: upsertAllResults (upsertHousingPost st p).1 ps

/-- Total number of revision rows in a housing table. -/
def totalRevisions (hs : List StoredHousing) : Nat :=
  (hs.map (fun h => h.revisions.length)).sum

/-- The state the Revision Engine leaves a post in: some housing carries the
post's key, its metadata is the post's, its current revision carries exactly
the post's (price, currency), and every housing with that key is that one. -/
def UpsertedFor (hs : List StoredHousing) (p : HousingPost) : Prop :=
  ∃ hp : StoredHousing, hp ∈ hs ∧ keyMatch hp p = true ∧
    hp.title = p.title ∧ hp.url = p.url ∧
    (∃ r rest, hp.revisions = r :: rest ∧ r.price = p.price ∧
      r.currency = p.price_currency) ∧
    ∀ h ∈ hs, keyMatch h p = true → h = hp

/-- Whether a search's fetch succeeds. -/
def fetchOk (fetch : SearchRow → Except String (List HousingPost)) (s : SearchRow) :
    Bool :=
  match fetch s with
  | .ok _ => true
  | .error _ => false

/-- The message a failed fetch contributes to the ETL error aggregate. -/
def fetchErrMsg (fetch : SearchRow → Except String (List HousingPost)) (s : SearchRow) :
    String :=
  match fetch s with
  | .ok _ => ""
  | .error e => e

/-- The store/counter update of one fetch-successful search. -/
def etlSuccessStep (fetch : SearchRow → Except String (List HousingPost)) (now : Int)
    (acc : Store × List (Int × Nat)) (s : SearchRow) : Store × List (Int × Nat) :=
  match fetch s with
  | .ok posts =>
    let out := store_housing_posts acc.1 posts s now s.last_search_at.isNone
    (out.store, addCount acc.2 s.user_telegram_id out.n_new_stuff)
  | .error _ => acc

/-- The initial store of a freshly created search (bot.py `create_search`,
lines 350-358): the posts fetched at creation time are stored with
`as_notified := true`. -/
def create_search_initial_store (st : Store) (posts : List HousingPost)
    (created_search : SearchRow) (now : Int) : StoreOutcome :=
  store_housing_posts st posts created_search now true

/-- A telegram client whose every send succeeds. -/
def okSend : Int → String → SendResult := fun _ _ => .ok

/-- A telegram client that reports the recipient blocked on every send. -/
def blockedSend : Int → String → SendResult := fun _ _ => .blocked

/-- The (watch id, current revision id) pairs one user's pass hands to the
marking step. -/
def pairsOf (now : Int) (uw : UserWatches) : List WatchRevisionsitem :=
  (selectedWatches now uw).map (fun w => WatchRevisionsitem.mk w.wid w.current_revision.rid)

/-- The log one user's pass produces when every send succeeds. -/
def okLog (now : Int) (uw : UserWatches) : UserLog :=
  ⟨uw.user.telegram_id, alertCondition now uw,
   updatedHeaderMsg (selectedWatches now uw)
     :: (selectedWatches now uw).map (updatedEntryMsg uw.user),
   pairsOf now uw⟩

/-- The notified-revision column of the row with a given watch id: `none` when
no such row exists, else `some` its (nullable) notified revision id. -/
def getNotified (rows : List WatchRow) (i : Nat) : Option (Option Nat) :=
  (rows.find? (fun r => r.wid == i)).map (fun r => r.notified_revision_id)

/-- A concrete fetch for the C3 scenario: search 2 fails, the rest succeed. -/
def c3Fetch : SearchRow → Except String (List HousingPost) :=
  fun s => if s.id == 2 then .error "boom" else .ok []

/-- A concrete search whose fetch succeeds (C3 scenario). -/
def c3Search1 : SearchRow := ⟨1, .zonaprop, "u1", 0, some 0, 11⟩

/-- A concrete search whose fetch fails (C3 scenario). -/
def c3Search2 : SearchRow := ⟨2, .zonaprop, "u2", 0, some 0, 22⟩

/-- A concrete pending watch whose user blocked the bot (C4 scenario): prior
notified revision 5, current revision 10. -/
def c4Watch : WatchItem :=
  ⟨1, 0, "su", ⟨.zonaprop, some "Casa", "hu", none, none, none⟩,
   ⟨5, 100, .USD⟩, ⟨10, 90, .USD⟩⟩

/-- The C4 user group: one user with the single pending watch. -/
def c4Group : UserWatches := ⟨⟨7, some "alice"⟩, [c4Watch]⟩

/-- A concrete pending watch for the C2 scenario, with watch id `i`, prior
notified revision `i` and current revision `100 + i`. -/
def c2Watch (i : Nat) : WatchItem :=
  ⟨i, 0, "su", ⟨.zonaprop, some "Casa", "hu", none, none, none⟩,
   ⟨i, 100, .USD⟩, ⟨100 + i, 90, .USD⟩⟩

/-- The C2 user group: one user with eight pending watches. -/
def c2Group : UserWatches :=
  ⟨⟨9, some "bob"⟩, [c2Watch 1, c2Watch 2, c2Watch 3, c2Watch 4, c2Watch 5,
    c2Watch 6, c2Watch 7, c2Watch 8]⟩

/-- The C2 watch rows before the run: watch `i` was last notified at
revision `i`. -/
def c2Rows : List WatchRow :=
  [⟨1, some 1⟩, ⟨2, some 2⟩, ⟨3, some 3⟩, ⟨4, some 4⟩, ⟨5, some 5⟩,
   ⟨6, some 6⟩, ⟨7, some 7⟩, ⟨8, some 8⟩]

/-- A concrete batch with a duplicated post id and differing prices (C5
scenario). -/
def c5Posts : List HousingPost :=
  [⟨.zonaprop, "a", "u1", "t1", 1, .USD⟩, ⟨.zonaprop, "a", "u2", "t2", 2, .USD⟩]

/-! ## Helper lemmas -/

/-- The special alert only ever appends a suffix to the message. -/
theorem bren_special_alert_append (t : String) (h : HousingInfo) (u : UserRec) :
    ∃ suf, bren_special_alert t h u = t ++ suf := by
  unfold bren_special_alert
  by_cases hc : (u.telegram_id != brenTgId && u.telegram_username != some "martincura") = true
  · exact ⟨"", by rw [if_pos hc, String.append_empty]⟩
  · rw [if_neg hc]
    cases hm : h.floor_match with
    | none => exact ⟨"", (String.append_empty t).symm⟩
    | some m =>
      exact ⟨"\n\n🚨 Piso alto?? (" ++ m ++ ") Investigarrrr",
        by simp [String.append_assoc]⟩

/-- Overwriting a post id in place leaves the id sequence unchanged. -/
theorem postIds_replace (acc : List HousingPost) (p : HousingPost) :
    postIds (acc.map (fun q => if q.post_id == p.post_id then p else q)) = postIds acc := by
  unfold postIds
  rw [List.map_map]
  apply List.map_congr_left
  intro q _
  simp only [Function.comp_apply]
  by_cases h : (q.post_id == p.post_id) = true
  · rw [if_pos h, eq_of_beq h]
  · rw [if_neg h]

/-- The dict-insert step preserves distinctness of the post ids. -/
theorem insertByPostId_nodup (acc : List HousingPost) (p : HousingPost)
    (h : (postIds acc).Nodup) : (postIds (insertByPostId acc p)).Nodup := by
  unfold insertByPostId
  by_cases hx : acc.any (fun q => q.post_id == p.post_id) = true
  · rw [if_pos hx, postIds_replace]
    exact h
  · rw [if_neg hx]
    unfold postIds
    rw [List.map_append, List.map_cons, List.map_nil]
    refine h.append (List.nodup_singleton _) ?_
    intro a ha hb
    rw [List.mem_singleton] at hb
    obtain ⟨q, hq, hqa⟩ := List.mem_map.mp ha
    apply hx
    refine List.any_eq_true.mpr ⟨q, hq, ?_⟩
    rw [hqa, hb]
    exact beq_self_eq_true _

/-- After replacing a present post id, the lookup at that id finds the new
post. -/
theorem findById_replace_self (acc : List HousingPost) (p : HousingPost)
    (hx : acc.any (fun q => q.post_id == p.post_id) = true) :
    findById (acc.map (fun q => if q.post_id == p.post_id then p else q)) p.post_id
      = some p := by
  induction acc with
  | nil => simp at hx
  | cons q qs ih =>
    by_cases h : (q.post_id == p.post_id) = true
    · rw [List.map_cons, if_pos h]
      unfold findById
      exact List.find?_cons_of_pos _ (beq_self_eq_true _)
    · rw [List.map_cons, if_neg h]
      unfold findById
      have hfalse : (q.post_id == p.post_id) = false := by simpa using h
      rw [List.find?_cons, hfalse]
      apply ih
      rw [List.any_cons, hfalse] at hx
      simpa using hx

/-- Replacing one post id leaves lookups at other ids unchanged. -/
theorem findById_replace_other (acc : List HousingPost) (p : HousingPost) (i : String)
    (hne : p.post_id ≠ i) :
    findById (acc.map (fun q => if q.post_id == p.post_id then p else q)) i
      = findById acc i := by
  induction acc with
  | nil => rfl
  | cons q qs ih =>
    by_cases h : (q.post_id == p.post_id) = true
    · have hq : q.post_id = p.post_id := eq_of_beq h
      have hp : (p.post_id == i) = false := beq_eq_false_iff_ne.mpr hne
      have hq2 : (q.post_id == i) = false := by rw [hq]; exact hp
      rw [List.map_cons, if_pos h]
      unfold findById
      rw [List.find?_cons, List.find?_cons, hp, hq2]
      exact ih
    · rw [List.map_cons, if_neg h]
      unfold findById
      rw [List.find?_cons, List.find?_cons]
      cases hq : (q.post_id == i) with
      | true => rfl
      | false => exact ih

/-- Inserting a post makes it the entry its post id looks up to. -/
theorem findById_insert_self (acc : List HousingPost) (p : HousingPost) :
    findById (insertByPostId acc p) p.post_id = some p := by
  unfold insertByPostId
  by_cases hx : acc.any (fun q => q.post_id == p.post_id) = true
  · rw [if_pos hx]
    exact findById_replace_self acc p hx
  · rw [if_neg hx]
    have hnone : findById acc p.post_id = none := by
      apply List.find?_eq_none.mpr
      intro x hxmem hpred
      exact absurd (List.any_eq_true.mpr ⟨x, hxmem, hpred⟩) hx
    unfold findById at *
    rw [List.find?_append, hnone, Option.none_or]
    exact List.find?_cons_of_pos _ (beq_self_eq_true _)

/-- Inserting a post leaves lookups at other ids unchanged. -/
theorem findById_insert_other (acc : List HousingPost) (p : HousingPost) (i : String)
    (hne : p.post_id ≠ i) :
    findById (insertByPostId acc p) i = findById acc i := by
  unfold insertByPostId
  by_cases hx : acc.any (fun q => q.post_id == p.post_id) = true
  · rw [if_pos hx]
    exact findById_replace_other acc p i hne
  · rw [if_neg hx]
    unfold findById
    rw [List.find?_append]
    have h1 : [p].find? (fun q => q.post_id == i) = none := by
      simp [beq_eq_false_iff_ne.mpr hne]
    rw [h1, Option.or_none]

/-- Unfolding equation for `lastOcc` on a cons cell. -/
theorem lastOcc_cons (p : HousingPost) (ps : List HousingPost) (i : String) :
    lastOcc (p :: ps) i =
      (match lastOcc ps i with
       | some q => some q
       | none => if p.post_id == i then some p else none) := rfl

/-- Folding the dict-insert over a batch: a lookup finds the last occurrence
in the batch, falling back to the accumulator. -/
theorem findById_dedup_fold (i : String) :
    ∀ (posts acc : List HousingPost),
      findById (posts.foldl insertByPostId acc) i =
        (match lastOcc posts i with
         | some q => some q
         | none => findById acc i) := by
  intro posts
  induction posts with
  | nil => intro acc; rfl
  | cons p ps ih =>
    intro acc
    rw [List.foldl_cons, ih, lastOcc_cons]
    cases hl : lastOcc ps i with
    | some q => rfl
    | none =>
      by_cases h : (p.post_id == i) = true
      · have hp : p.post_id = i := eq_of_beq h
        simp only [h, if_true]
        rw [← hp]
        exact findById_insert_self acc p
      · simp only [h, Bool.false_eq_true, if_false]
        exact findById_insert_other acc p i
          (fun he => h (by rw [he]; exact beq_self_eq_true _))

/-- The dedup fold keeps post ids distinct. -/
theorem dedupPosts_fold_nodup : ∀ (posts acc : List HousingPost),
    (postIds acc).Nodup → (postIds (posts.foldl insertByPostId acc)).Nodup := by
  intro posts
  induction posts with
  | nil => intro acc h; exact h
  | cons p ps ih =>
    intro acc h
    rw [List.foldl_cons]
    exact ih _ (insertByPostId_nodup acc p h)

/-- The deduplicated batch has pairwise distinct post ids. -/
theorem dedupPosts_nodup (posts : List HousingPost) : (postIds (dedupPosts posts)).Nodup :=
  dedupPosts_fold_nodup posts [] (by simp [postIds])

/-- Dedup semantics: a lookup in the deduplicated batch returns exactly the
last occurrence of that post id in the original batch. -/
theorem findById_dedupPosts (posts : List HousingPost) (i : String) :
    findById (dedupPosts posts) i = lastOcc posts i := by
  rw [dedupPosts, findById_dedup_fold]
  cases lastOcc posts i <;> rfl

/-- The duplicate warning fires exactly when the batch's post ids are not
pairwise distinct. -/
theorem dupWarning_iff (posts : List HousingPost) :
    dupWarning posts = true ↔ ¬ (postIds posts).Nodup := by
  unfold dupWarning
  rw [bne_iff_ne]
  constructor
  · intro h hnod
    exact h (by rw [List.dedup_eq_self.mpr hnod]; simp [postIds])
  · intro hnod heq
    apply hnod
    apply List.dedup_eq_self.mp
    apply (List.dedup_sublist _).eq_of_length
    rw [heq]
    simp [postIds]

/-- A `find?` whose predicate singles out one element finds it. -/
theorem find_unique {α : Type} (l : List α) (p : α → Bool) (x : α)
    (hx : x ∈ l) (hpx : p x = true) (huniq : ∀ y ∈ l, p y = true → y = x) :
    l.find? p = some x := by
  induction l with
  | nil => cases hx
  | cons a as ih =>
    rw [List.find?_cons]
    cases ha : p a with
    | true =>
      have hax : a = x := huniq a (List.mem_cons_self a as) ha
      subst hax
      rfl
    | false =>
      have hxa : x ≠ a := by
        intro he
        rw [he, ha] at hpx
        cases hpx
      have hxas : x ∈ as := by
        rcases List.mem_cons.mp hx with h | h
        · exact absurd h hxa
        · exact h
      exact ih hxas (fun y hy hpy => huniq y (List.mem_cons_of_mem a hy) hpy)

/-- `keyMatch` unpacked to propositional equality of the key fields. -/
theorem keyMatch_iff (h : StoredHousing) (p : HousingPost) :
    keyMatch h p = true ↔ (h.provider = p.provider ∧ h.post_id = p.post_id) := by
  simp [keyMatch]

/-- If `UpsertedFor` holds then the housing lookup finds the canonical
housing, with all its properties. -/
theorem find_of_upsertedFor {hs : List StoredHousing} {p : HousingPost}
    (h : UpsertedFor hs p) :
    ∃ hp, hs.find? (fun h0 => keyMatch h0 p) = some hp ∧ keyMatch hp p = true ∧
      hp.title = p.title ∧ hp.url = p.url ∧
      (∃ r rest, hp.revisions = r :: rest ∧ r.price = p.price ∧
        r.currency = p.price_currency) ∧
      ∀ h0 ∈ hs, keyMatch h0 p = true → h0 = hp := by
  obtain ⟨hp, hmem, hkey, ht, hu, hrev, huniq⟩ := h
  exact ⟨hp, find_unique hs _ hp hmem hkey huniq, hkey, ht, hu, hrev, huniq⟩

/-- Replacing every key-matching housing by one with the post's metadata and
a matching current revision establishes `UpsertedFor`. -/
theorem upsertedFor_map_branch (hs : List StoredHousing) (p : HousingPost)
    (h h2 : StoredHousing) (hmem : h ∈ hs) (hkey : keyMatch h p = true)
    (hk2 : keyMatch h2 p = true) (ht : h2.title = p.title) (hu : h2.url = p.url)
    (hrev : ∃ r rest, h2.revisions = r :: rest ∧ r.price = p.price ∧
      r.currency = p.price_currency) :
    UpsertedFor (hs.map (fun h0 => if keyMatch h0 p then h2 else h0)) p := by
  refine ⟨h2, List.mem_map.mpr ⟨h, hmem, by rw [if_pos hkey]⟩, hk2, ht, hu, hrev, ?_⟩
  intro h0 hh0 hk0
  obtain ⟨h1, hh1, hf⟩ := List.mem_map.mp hh0
  by_cases hk1 : keyMatch h1 p = true
  · rw [if_pos hk1] at hf
    exact hf.symm
  · rw [if_neg hk1] at hf
    rw [← hf] at hk0
    exact absurd hk0 hk1

/-- A housing whose `head?` is a known revision splits as that revision
consed on some tail. -/
theorem revisions_of_currentRevision {h : StoredHousing} {cur : Revision}
    (hcur : currentRevision h = some cur) :
    ∃ rest, h.revisions = cur :: rest := by
  unfold currentRevision at hcur
  cases hrevs : h.revisions with
  | nil => rw [hrevs] at hcur; cases hcur
  | cons a as =>
    rw [hrevs] at hcur
    simp only [List.head?_cons, Option.some.injEq] at hcur
    exact ⟨as, by rw [hcur]⟩

/-- After upserting a post, the store state satisfies `UpsertedFor` for it. -/
theorem upsertedFor_after_upsert (st : Store) (p : HousingPost) :
    UpsertedFor (upsertHousingPost st p).1.housings p := by
  unfold upsertHousingPost
  split
  next hf =>
    refine ⟨⟨p.provider, p.post_id, p.title, p.url,
      [⟨st.next_rid, p.price, p.price_currency⟩]⟩,
      List.mem_append_right _ (List.mem_singleton.mpr rfl),
      by simp [keyMatch], rfl, rfl, ⟨_, _, rfl, rfl, rfl⟩, ?_⟩
    intro h0 hh0 hk
    rcases List.mem_append.mp hh0 with hl | hr
    · exact absurd hk (List.find?_eq_none.mp hf h0 hl)
    · exact List.mem_singleton.mp hr
  next h hf =>
    have hmem : h ∈ st.housings := List.mem_of_find?_eq_some hf
    have hkey : keyMatch h p = true := by simpa using List.find?_some hf
    split
    next hcur =>
      refine upsertedFor_map_branch st.housings p h _ hmem hkey ?_ ?_ ?_ ?_
      · exact hkey
      · rfl
      · rfl
      · exact ⟨_, _, rfl, rfl, rfl⟩
    next cur hcur =>
      split
      next heq =>
        obtain ⟨hp1, hp2⟩ := Bool.and_eq_true_iff.mp heq
        obtain ⟨rest, hrest⟩ := revisions_of_currentRevision hcur
        refine upsertedFor_map_branch st.housings p h _ hmem hkey ?_ ?_ ?_ ?_
        · exact hkey
        · rfl
        · rfl
        · exact ⟨cur, rest, hrest, eq_of_beq hp1, eq_of_beq hp2⟩
      next heq =>
        refine upsertedFor_map_branch st.housings p h _ hmem hkey ?_ ?_ ?_ ?_
        · exact hkey
        · rfl
        · rfl
        · exact ⟨_, _, rfl, rfl, rfl⟩

/-- `UpsertedFor` survives replacing housings of a different key. -/
theorem upsertedFor_preserved_map (hs : List StoredHousing) (p q : HousingPost)
    (h2q : StoredHousing) (hk2q : keyMatch h2q q = true)
    (hdisj : ∀ h0 : StoredHousing, keyMatch h0 p = true → keyMatch h0 q = false)
    (h : UpsertedFor hs p) :
    UpsertedFor (hs.map (fun h0 => if keyMatch h0 q then h2q else h0)) p := by
  obtain ⟨hp, hmem, hkey, ht, hu, hrev, huniq⟩ := h
  refine ⟨hp, List.mem_map.mpr ⟨hp, hmem, by rw [if_neg (by simp [hdisj hp hkey])]⟩,
    hkey, ht, hu, hrev, ?_⟩
  intro h0 hh0 hk0
  obtain ⟨h1, hh1, hf⟩ := List.mem_map.mp hh0
  by_cases hk1 : keyMatch h1 q = true
  · rw [if_pos hk1] at hf
    rw [← hf] at hk0
    have hcontra := hdisj h2q hk0
    rw [hcontra] at hk2q
    cases hk2q
  · rw [if_neg hk1] at hf
    rw [← hf] at hk0 ⊢
    exact huniq h1 hh1 hk0

/-- `UpsertedFor` a post is preserved by upserting a post of a different
(provider, post id) key. -/
theorem upsertedFor_upsert_other (st : Store) (q p : HousingPost)
    (hne : ¬ (q.provider = p.provider ∧ q.post_id = p.post_id))
    (h : UpsertedFor st.housings p) :
    UpsertedFor (upsertHousingPost st q).1.housings p := by
  have hdisj : ∀ h0 : StoredHousing, keyMatch h0 p = true → keyMatch h0 q = false := by
    intro h0 hk
    cases hq : keyMatch h0 q with
    | false => rfl
    | true =>
      obtain ⟨e1, e2⟩ := (keyMatch_iff h0 p).mp hk
      obtain ⟨f1, f2⟩ := (keyMatch_iff h0 q).mp hq
      exact absurd ⟨f1.symm.trans e1, f2.symm.trans e2⟩ hne
  unfold upsertHousingPost
  split
  next hf =>
    obtain ⟨hp, hmem, hkey, ht, hu, hrev, huniq⟩ := h
    refine ⟨hp, List.mem_append_left _ hmem, hkey, ht, hu, hrev, ?_⟩
    intro h0 hh0 hk0
    rcases List.mem_append.mp hh0 with hl | hr
    · exact huniq h0 hl hk0
    · rw [List.mem_singleton.mp hr] at hk0
      obtain ⟨e1, e2⟩ := (keyMatch_iff _ p).mp hk0
      exact absurd ⟨e1, e2⟩ hne
  next hq hf =>
    have hkq : keyMatch hq q = true := by simpa using List.find?_some hf
    split
    next hcur =>
      exact upsertedFor_preserved_map st.housings p q _ hkq hdisj h
    next cur hcur =>
      split
      next heq => exact upsertedFor_preserved_map st.housings p q _ hkq hdisj h
      next heq => exact upsertedFor_preserved_map st.housings p q _ hkq hdisj h

/-- `UpsertedFor` a post is preserved by upserting any batch of posts whose
keys all differ from it. -/
theorem upsertedFor_fold_preserved (p : HousingPost) :
    ∀ (posts : List HousingPost) (st : Store),
      (∀ q ∈ posts, ¬ (q.provider = p.provider ∧ q.post_id = p.post_id)) →
      UpsertedFor st.housings p →
      UpsertedFor (upsertAllStore st posts).housings p := by
  intro posts
  induction posts with
  | nil => intro st _ h; exact h
  | cons q qs ih =>
    intro st hq h
    rw [upsertAllStore, List.foldl_cons]
    exact ih (upsertHousingPost st q).1 (fun r hr => hq r (List.mem_cons_of_mem q hr))
      (upsertedFor_upsert_other st q p (hq q (List.mem_cons_self q qs)) h)

/-- After the batch upsert of a duplicate-free batch, `UpsertedFor` holds for
every post of the batch. -/
theorem upsertedFor_all :
    ∀ (posts : List HousingPost) (p : HousingPost) (st : Store),
      p ∈ posts → (postIds posts).Nodup →
      UpsertedFor (upsertAllStore st posts).housings p := by
  intro posts
  induction posts with
  | nil => intro p st h _; cases h
  | cons q qs ih =>
    intro p st hmem hnod
    have hnod2 : q.post_id ∉ postIds qs ∧ (postIds qs).Nodup := by
      have : postIds (q :: qs) = q.post_id :: postIds qs := rfl
      rw [this] at hnod
      exact List.nodup_cons.mp hnod
    rw [upsertAllStore, List.foldl_cons]
    rcases List.mem_cons.mp hmem with he | hm
    · subst he
      apply upsertedFor_fold_preserved p qs (upsertHousingPost st p).1
      · intro r hr hc
        apply hnod2.1
        rw [← hc.2]
        exact List.mem_map_of_mem _ hr
      · exact upsertedFor_after_upsert st p
    · exact ih p (upsertHousingPost st q).1 hm hnod2.2

/-- Upserting a post the store already reflects changes nothing and reports
neither a new housing nor a new revision. -/
theorem upsertHousingPost_noop (st : Store) (p : HousingPost)
    (h : UpsertedFor st.housings p) :
    (upsertHousingPost st p).1 = st
    ∧ (upsertHousingPost st p).2.is_new = false
    ∧ (upsertHousingPost st p).2.added_revision = false := by
  obtain ⟨hp, hfind, hkey, ht, hu, ⟨r, rest, hrevs, hrp, hrc⟩, huniq⟩ :=
    find_of_upsertedFor h
  have hcur : currentRevision hp = some r := by
    rw [currentRevision, hrevs]
    rfl
  have heq : (r.price == p.price && r.currency == p.price_currency) = true := by
    simp [hrp, hrc]
  have hred : upsertHousingPost st p =
      (⟨st.housings.map (fun h0 =>
          if keyMatch h0 p then { hp with title := p.title, url := p.url } else h0),
        st.watches, st.next_rid⟩,
       ⟨p.provider, p.post_id, false, false, r.rid, some r.rid⟩) := by
    unfold upsertHousingPost
    rw [hfind]
    show (match currentRevision hp with
      | none => _
      | some cur => _) = _
    rw [hcur]
    show (if (r.price == p.price && r.currency == p.price_currency) = true
      then _ else _) = _
    rw [if_pos heq]
  have hid : ({ hp with title := p.title, url := p.url } : StoredHousing) = hp := by
    obtain ⟨pr, pid, t, u, revs⟩ := hp
    simp only at ht hu
    rw [ht, hu]
  have hmapid : st.housings.map (fun h0 =>
      if keyMatch h0 p then { hp with title := p.title, url := p.url } else h0)
      = st.housings := by
    rw [hid]
    conv_rhs => rw [← List.map_id st.housings]
    apply List.map_congr_left
    intro h0 hh0
    by_cases hk : keyMatch h0 p = true
    · rw [if_pos hk, huniq h0 hh0 hk]
      rfl
    · rw [if_neg hk]
      rfl
  rw [hred, hmapid]
  exact ⟨by cases st; rfl, rfl, rfl⟩

/-- Upserting a whole batch the store already reflects changes nothing and
every result row reports no new housing and no new revision. -/
theorem upsertAll_noop :
    ∀ (posts : List HousingPost) (st : Store),
      (∀ p ∈ posts, UpsertedFor st.housings p) →
      upsertAllStore st posts = st
      ∧ ∀ u ∈ upsertAllResults st posts, u.is_new = false ∧ u.added_revision = false := by
  intro posts
  induction posts with
  | nil =>
    intro st _
    exact ⟨rfl, by intro u hu; cases hu⟩
  | cons p ps ih =>
    intro st hall
    have h1 := upsertHousingPost_noop st p (hall p (List.mem_cons_self p ps))
    have hrest := ih st (fun q hq => hall q (List.mem_cons_of_mem p hq))
    constructor
    · rw [upsertAllStore, List.foldl_cons, h1.1]
      exact hrest.1
    · intro u hu
      rw [upsertAllResults, h1.1] at hu
      rcases List.mem_cons.mp hu with he | hm
      · rw [he]
        exact ⟨h1.2.1, h1.2.2⟩
      · exact hrest.2 u hm

/-- The pair returned by the housing-upsert fold is the store fold paired
with the result rows. -/
theorem upsert_fold_aux :
    ∀ (posts : List HousingPost) (st : Store) (acc : List UpsertResult),
      posts.foldl (fun acc p =>
        let step := upsertHousingPost acc.1 p
        (step.1, acc.2 ++ [step.2])) (st, acc)
      = (upsertAllStore st posts, acc ++ upsertAllResults st posts) := by
  intro posts
  induction posts with
  | nil =>
    intro st acc
    simp [upsertAllStore, upsertAllResults]
  | cons p ps ih =>
    intro st acc
    rw [List.foldl_cons, ih]
    show (upsertAllStore (upsertHousingPost st p).1 ps,
        (acc ++ [(upsertHousingPost st p).2]) ++
          upsertAllResults (upsertHousingPost st p).1 ps)
      = (upsertAllStore st (p :: ps), acc ++ upsertAllResults st (p :: ps))
    rw [upsertAllResults, List.append_assoc]
    rfl

/-- `upsert_housing_from_search` decomposed into its store and result
components. -/
theorem upsert_housing_from_search_decomp (st : Store) (posts : List HousingPost) :
    upsert_housing_from_search st posts
      = (upsertAllStore st posts, upsertAllResults st posts) := by
  rw [upsert_housing_from_search, upsert_fold_aux]
  rw [List.nil_append]

/-- The batch `store_housing_posts` actually upserts (deduplicated when the
warning fired) has pairwise distinct post ids. -/
theorem storedBatch_nodup (posts : List HousingPost) :
    (postIds (if dupWarning posts then dedupPosts posts else posts)).Nodup := by
  by_cases h : dupWarning posts = true
  · rw [if_pos h]
    exact dedupPosts_nodup posts
  · rw [if_neg h]
    by_contra hnod
    exact h ((dupWarning_iff posts).mpr hnod)

/-- When the store already reflects every post of the (deduplicated) batch,
`store_housing_posts` leaves the housing table unchanged and reports nothing
new. -/
theorem store_housing_posts_noop_components (st1 : Store) (posts : List HousingPost)
    (search : SearchRow) (t : Int) (an : Bool)
    (hall : ∀ p ∈ (if dupWarning posts then dedupPosts posts else posts),
      UpsertedFor st1.housings p) :
    (store_housing_posts st1 posts search t an).store.housings = st1.housings
    ∧ (∀ u ∈ (store_housing_posts st1 posts search t an).results,
        u.is_new = false ∧ u.added_revision = false)
    ∧ (store_housing_posts st1 posts search t an).n_new_stuff = 0 := by
  have hnoop := upsertAll_noop _ st1 hall
  simp only [store_housing_posts, upsert_housing_from_search_decomp]
  refine ⟨?_, ?_, ?_⟩
  · rw [hnoop.1]
  · intro u hu
    exact hnoop.2 u hu
  · have h1 : List.filter (fun u => u.added_revision)
        (upsertAllResults st1 (if dupWarning posts then dedupPosts posts else posts))
        = [] :=
      List.filter_eq_nil_iff.mpr (fun u hu => by simp [(hnoop.2 u hu).2])
    have h2 : List.filter (fun u => u.is_new)
        (upsertAllResults st1 (if dupWarning posts then dedupPosts posts else posts))
        = [] :=
      List.filter_eq_nil_iff.mpr (fun u hu => by simp [(hnoop.2 u hu).1])
    rw [h1, h2]
    rfl

/-- The housing upsert never touches the watch table. -/
theorem upsertHousingPost_watches (st : Store) (p : HousingPost) :
    (upsertHousingPost st p).1.watches = st.watches := by
  unfold upsertHousingPost
  split
  · rfl
  · split
    · rfl
    · split <;> rfl

/-- The batch housing upsert never touches the watch table. -/
theorem upsertAllStore_watches :
    ∀ (posts : List HousingPost) (st : Store),
      (upsertAllStore st posts).watches = st.watches := by
  intro posts
  induction posts with
  | nil => intro st; rfl
  | cons p ps ih =>
    intro st
    rw [upsertAllStore, List.foldl_cons]
    have h := ih (upsertHousingPost st p).1
    rw [upsertAllStore] at h
    rw [h, upsertHousingPost_watches]

/-- Every upsert result row carries its post's key fields. -/
theorem upsertHousingPost_key (st : Store) (p : HousingPost) :
    (upsertHousingPost st p).2.provider = p.provider
    ∧ (upsertHousingPost st p).2.post_id = p.post_id := by
  unfold upsertHousingPost
  split
  · exact ⟨rfl, rfl⟩
  · split
    · exact ⟨rfl, rfl⟩
    · split <;> exact ⟨rfl, rfl⟩

/-- The result rows carry exactly the batch's post ids, in order. -/
theorem upsertAllResults_postIds :
    ∀ (posts : List HousingPost) (st : Store),
      (upsertAllResults st posts).map (fun u => u.post_id) = postIds posts := by
  intro posts
  induction posts with
  | nil => intro st; rfl
  | cons p ps ih =>
    intro st
    rw [upsertAllResults, List.map_cons, (upsertHousingPost_key st p).2, ih]
    rfl

/-- Unfolding equation for the batch watch upsert on a cons cell. -/
theorem upsert_watches_cons (ws : List HousingWatch) (sid : Nat) (u : UpsertResult)
    (us : List UpsertResult) (t : Int) (an : Bool) :
    upsert_watches_for_search ws sid (u :: us) t an
      = upsert_watches_for_search (upsertWatchOne ws sid u t an) sid us t an := by
  rw [upsert_watches_for_search, upsert_watches_for_search, List.foldl_cons]

/-- Seeding invariant of the watch upsert with `as_notified = true`: starting
from a watch table whose rows for the search all point at their current
revision (and whose post ids are among the already-processed ones), after
upserting result rows with fresh, pairwise-distinct post ids every row of the
search points at its current revision. -/
theorem upsert_watches_seed (sid : Nat) (t : Int) :
    ∀ (results : List UpsertResult) (ws : List HousingWatch) (processed : List String),
      (processed ++ results.map (fun u => u.post_id)).Nodup →
      (∀ w ∈ ws, w.search_id = sid →
        (w.notified_revision_id = some w.current_revision_id ∧ w.post_id ∈ processed)) →
      ∀ w ∈ upsert_watches_for_search ws sid results t true, w.search_id = sid →
        w.notified_revision_id = some w.current_revision_id := by
  intro results
  induction results with
  | nil =>
    intro ws processed _ hinv w hw hsid
    exact (hinv w hw hsid).1
  | cons u us ih =>
    intro ws processed hnod hinv
    rw [upsert_watches_cons]
    have hany : ws.any (fun w =>
        w.search_id == sid && w.provider == u.provider && w.post_id == u.post_id)
        = false := by
      cases hx : ws.any (fun w =>
          w.search_id == sid && w.provider == u.provider && w.post_id == u.post_id) with
      | false => rfl
      | true =>
        obtain ⟨w, hw, hpred⟩ := List.any_eq_true.mp hx
        obtain ⟨hab, hc⟩ := Bool.and_eq_true_iff.mp hpred
        obtain ⟨ha, _⟩ := Bool.and_eq_true_iff.mp hab
        have hsid : w.search_id = sid := by simpa using ha
        have hpid : w.post_id = u.post_id := by simpa using hc
        have hmem := (hinv w hw hsid).2
        rw [hpid] at hmem
        have hdisj := List.disjoint_of_nodup_append hnod
        have hnotin := hdisj hmem
        rw [List.map_cons] at hnotin
        exact absurd (List.mem_cons_self u.post_id _) hnotin
    have hstep : upsertWatchOne ws sid u t true
        = ws ++ [⟨sid, u.provider, u.post_id, t, some u.current_rid, u.current_rid⟩] := by
      unfold upsertWatchOne
      rw [if_neg (by simp [hany])]
      rfl
    rw [hstep]
    apply ih _ (processed ++ [u.post_id])
    · rw [List.append_assoc]
      exact hnod
    · intro w hw hsid
      rcases List.mem_append.mp hw with hl | hr
      · obtain ⟨hn, hp⟩ := hinv w hl hsid
        exact ⟨hn, List.mem_append_left _ hp⟩
      · rw [List.mem_singleton.mp hr]
        exact ⟨rfl, List.mem_append_right _ (List.mem_singleton.mpr rfl)⟩

/-- With an always-succeeding client, the send loop delivers every message
and completes. -/
theorem sendMessages_ok (msgs : List String) :
    sendMessages (fun _ => SendResult.ok) msgs = (msgs, NotifyOutcome.completed) := by
  induction msgs with
  | nil => rfl
  | cons m ms ih => simp [sendMessages, ih]

/-- With an always-succeeding client, the notify run never raises, logs each
user's full batch in order, and marks by folding the per-user pairs over the
rows. -/
theorem notify_run_ok (now : Int) :
    ∀ (gs : List UserWatches) (rows : List WatchRow),
      notify_new_revisions okSend now gs rows =
        ⟨gs.foldl (fun r uw => update_notified_housing_watches r (pairsOf now uw)) rows,
         gs.map (okLog now), false⟩ := by
  intro gs
  induction gs with
  | nil => intro rows; rfl
  | cons uw rest ih =>
    intro rows
    have hsend : notify_updated_housing okSend uw.user (selectedWatches now uw)
        = (updatedHeaderMsg (selectedWatches now uw)
            :: (selectedWatches now uw).map (updatedEntryMsg uw.user),
           NotifyOutcome.completed) := by
      unfold notify_updated_housing okSend
      exact sendMessages_ok _
    simp only [notify_new_revisions, hsend, ih, List.foldl_cons, List.map_cons]
    rfl

/-- The marking step does not change a row's watch id. -/
theorem updateRow_wid (r : WatchRow) (pairs : List WatchRevisionsitem) :
    (match pairs.find? (fun p : WatchRevisionsitem => p.hw_id == r.wid) with
     | some p => { r with notified_revision_id := some p.revision_id }
     | none => r).wid = r.wid := by
  cases pairs.find? (fun p : WatchRevisionsitem => p.hw_id == r.wid) <;> rfl

/-- Marking preserves which watch ids have a row. -/
theorem update_notified_isSome (pairs : List WatchRevisionsitem) (i : Nat) :
    ∀ rows, ((update_notified_housing_watches rows pairs).find?
        (fun r => r.wid == i)).isSome
      = ((rows.find? (fun r => r.wid == i))).isSome := by
  intro rows
  induction rows with
  | nil => rfl
  | cons r rs ih =>
    rw [update_notified_housing_watches, List.map_cons, List.find?_cons,
      List.find?_cons, updateRow_wid]
    cases hw : (r.wid == i) with
    | true => rfl
    | false => exact ih

/-- Marking pairs that never mention a watch id leaves that row's notified
revision unchanged. -/
theorem getNotified_update_not_mem (pairs : List WatchRevisionsitem) (i : Nat)
    (hni : ∀ p ∈ pairs, p.hw_id ≠ i) :
    ∀ rows, getNotified (update_notified_housing_watches rows pairs) i
      = getNotified rows i := by
  intro rows
  induction rows with
  | nil => rfl
  | cons r rs ih =>
    unfold getNotified at *
    rw [update_notified_housing_watches, List.map_cons, List.find?_cons,
      List.find?_cons, updateRow_wid]
    cases hw : (r.wid == i) with
    | true =>
      have hwi : r.wid = i := by simpa using hw
      have hfind : pairs.find? (fun p => p.hw_id == r.wid) = none := by
        apply List.find?_eq_none.mpr
        intro p hp hpred
        exact hni p hp (by rw [← hwi]; simpa using hpred)
      rw [hfind]
    | false => exact ih

/-- Marking pairs that pair a watch id with a revision set that row's
notified revision to it (when the row exists). -/
theorem getNotified_update_found (pairs : List WatchRevisionsitem) (i : Nat)
    (q : WatchRevisionsitem) (hq : pairs.find? (fun p => p.hw_id == i) = some q) :
    ∀ rows, getNotified (update_notified_housing_watches rows pairs) i
      = (rows.find? (fun r => r.wid == i)).map (fun _ => some q.revision_id) := by
  intro rows
  induction rows with
  | nil => rfl
  | cons r rs ih =>
    unfold getNotified at *
    rw [update_notified_housing_watches, List.map_cons, List.find?_cons,
      List.find?_cons, updateRow_wid]
    cases hw : (r.wid == i) with
    | true =>
      have hwi : r.wid = i := by simpa using hw
      have hfind : pairs.find? (fun p => p.hw_id == r.wid) = some q := by
        rw [hwi]
        exact hq
      rw [hfind]
      rfl
    | false => exact ih

/-- Folding user markings none of which mention a watch id leaves that row's
notified revision unchanged. -/
theorem getNotified_fold_not_mem (now : Int) (i : Nat) :
    ∀ (gs : List UserWatches) (rows : List WatchRow),
      (∀ uw ∈ gs, ∀ p ∈ pairsOf now uw, p.hw_id ≠ i) →
      getNotified (gs.foldl
          (fun r uw => update_notified_housing_watches r (pairsOf now uw)) rows) i
        = getNotified rows i := by
  intro gs
  induction gs with
  | nil => intro rows _; rfl
  | cons uw rest ih =>
    intro rows hall
    rw [List.foldl_cons, ih _ (fun v hv => hall v (List.mem_cons_of_mem uw hv))]
    exact getNotified_update_not_mem _ i (hall uw (List.mem_cons_self uw rest)) rows

/-- Folding user markings preserves which watch ids have a row. -/
theorem find_isSome_fold (now : Int) (i : Nat) :
    ∀ (gs : List UserWatches) (rows : List WatchRow),
      ((gs.foldl (fun r uw => update_notified_housing_watches r (pairsOf now uw))
          rows).find? (fun r => r.wid == i)).isSome
        = ((rows.find? (fun r => r.wid == i))).isSome := by
  intro gs
  induction gs with
  | nil => intro rows; rfl
  | cons uw rest ih =>
    intro rows
    rw [List.foldl_cons, ih, update_notified_isSome]

/-- Folding the run's markings over `pre ++ uw :: post` sets the notified
revision of a watch id that only `uw`'s pairs mention. -/
theorem getNotified_fold_marked (now : Int) (i : Nat) (q : WatchRevisionsitem)
    (pre post : List UserWatches) (uw : UserWatches) (rows : List WatchRow)
    (hq : (pairsOf now uw).find? (fun p => p.hw_id == i) = some q)
    (hpost : ∀ v ∈ post, ∀ p ∈ pairsOf now v, p.hw_id ≠ i)
    (hrow : ((rows.find? (fun r => r.wid == i))).isSome = true) :
    getNotified ((pre ++ uw :: post).foldl
        (fun r uw => update_notified_housing_watches r (pairsOf now uw)) rows) i
      = some (some q.revision_id) := by
  rw [List.foldl_append, List.foldl_cons]
  rw [getNotified_fold_not_mem now i post _ hpost]
  rw [getNotified_update_found (pairsOf now uw) i q hq]
  have hs : ((pre.foldl
      (fun r uw => update_notified_housing_watches r (pairsOf now uw))
      rows).find? (fun r => r.wid == i)).isSome = true := by
    rw [find_isSome_fold]
    exact hrow
  cases hfind : (pre.foldl
      (fun r uw => update_notified_housing_watches r (pairsOf now uw))
      rows).find? (fun r => r.wid == i) with
  | none => rw [hfind] at hs; cases hs
  | some r => rfl

/-- Every selected watch is one of the user's watches. -/
theorem selectedWatches_sub (now : Int) (uw : UserWatches) (w : WatchItem)
    (h : w ∈ selectedWatches now uw) : w ∈ uw.watches := by
  unfold selectedWatches at h
  have hf : w ∈ filteredWatches now uw := by
    by_cases hc : (filteredWatches now uw).length > MAX_NOTIFS_IN_UPDATE_PER_USER
    · rw [if_pos hc] at h
      exact List.mem_of_mem_take h
    · rwa [if_neg hc] at h
  exact List.mem_of_mem_filter hf

/-- Distinct watch ids survive the grace filter. -/
theorem filteredWatches_wid_nodup (now : Int) (uw : UserWatches)
    (h : (uw.watches.map (fun w => w.wid)).Nodup) :
    ((filteredWatches now uw).map (fun w => w.wid)).Nodup :=
  h.sublist ((List.filter_sublist _).map _)

/-- A watch of a duplicate-free list finds its own (watch id, revision id)
pair in the marking list built from it. -/
theorem pairs_find_self :
    ∀ (ws : List WatchItem) (w : WatchItem), w ∈ ws →
      ((ws.map (fun x => x.wid)).Nodup) →
      (ws.map (fun x => WatchRevisionsitem.mk x.wid x.current_revision.rid)).find?
        (fun p => p.hw_id == w.wid) = some ⟨w.wid, w.current_revision.rid⟩ := by
  intro ws
  induction ws with
  | nil => intro w hmem; cases hmem
  | cons v vs ih =>
    intro w hmem hnod
    rw [List.map_cons] at hnod
    obtain ⟨hv1, hv2⟩ := List.nodup_cons.mp hnod
    simp only [List.map_cons, List.find?_cons]
    rcases List.mem_cons.mp hmem with he | hm
    · subst he
      simp [beq_self_eq_true]
    · have hne : v.wid ≠ w.wid := by
        intro hcontra
        exact hv1 (hcontra ▸ List.mem_map_of_mem _ hm)
      have hvf : (v.wid == w.wid) = false := beq_eq_false_iff_ne.mpr hne
      simp only [hvf]
      exact ih w hm hv2

/-! ## Claim theorems -/

/-- C1: re-running `store_housing_posts` with an identical batch on the state
the first run produced appends zero additional revisions: the housing table
is unchanged, the total revision count is unchanged, every second-run result
reports an existing housing with no new revision, and the reported news count
is zero. -/
theorem c1_second_run_adds_no_revisions (st : Store) (posts : List HousingPost)
    (search : SearchRow) (t : Int) (an : Bool) :
    (store_housing_posts (store_housing_posts st posts search t an).store
        posts search t an).store.housings
      = (store_housing_posts st posts search t an).store.housings
    ∧ totalRevisions (store_housing_posts (store_housing_posts st posts search t an).store
        posts search t an).store.housings
      = totalRevisions (store_housing_posts st posts search t an).store.housings
    ∧ (∀ u ∈ (store_housing_posts (store_housing_posts st posts search t an).store
        posts search t an).results, u.is_new = false ∧ u.added_revision = false)
    ∧ (store_housing_posts (store_housing_posts st posts search t an).store
        posts search t an).n_new_stuff = 0 := by
  have hall : ∀ p ∈ (if dupWarning posts then dedupPosts posts else posts),
      UpsertedFor (store_housing_posts st posts search t an).store.housings p := by
    intro p hp
    have hh : (store_housing_posts st posts search t an).store.housings
        = (upsertAllStore st (if dupWarning posts then dedupPosts posts else posts)).housings := by
      simp only [store_housing_posts, upsert_housing_from_search_decomp]
    rw [hh]
    exact upsertedFor_all _ p st hp (storedBatch_nodup posts)
  have hmain := store_housing_posts_noop_components
    (store_housing_posts st posts search t an).store posts search t an hall
  exact ⟨hmain.1, by rw [hmain.1], hmain.2.1, hmain.2.2⟩

/-- C2: in a notify run where every send succeeds, a user with more than
`MAX_NOTIFS_IN_UPDATE_PER_USER` (5) pending watches has exactly the first 5
(in order) delivered — the sent batch is the header plus their 5 entries —
and marked notified at their current revisions, the operator alert is
raised for that user, the run does not fail, and every remaining pending
watch keeps its pre-run `notified_revision_id`. -/
theorem c2_batch_cap_first_five (now : Int) (pre post : List UserWatches)
    (uw : UserWatches) (rows : List WatchRow)
    (hcount : MAX_NOTIFS_IN_UPDATE_PER_USER < (filteredWatches now uw).length)
    (hnodup : (uw.watches.map (fun w => w.wid)).Nodup)
    (hdisj : ∀ v ∈ pre ++ post, ∀ x ∈ v.watches, ∀ w ∈ uw.watches, x.wid ≠ w.wid)
    (hrows : ∀ w ∈ uw.watches,
      ((rows.find? (fun r => r.wid == w.wid))).isSome = true) :
    (notify_new_revisions okSend now (pre ++ uw :: post) rows).raised = false
    ∧ (notify_new_revisions okSend now (pre ++ uw :: post) rows).logs
        = pre.map (okLog now) ++ okLog now uw :: post.map (okLog now)
    ∧ selectedWatches now uw
        = (filteredWatches now uw).take MAX_NOTIFS_IN_UPDATE_PER_USER
    ∧ (okLog now uw).alerted = true
    ∧ (okLog now uw).sent
        = updatedHeaderMsg (selectedWatches now uw)
          :: (selectedWatches now uw).map (updatedEntryMsg uw.user)
    ∧ (okLog now uw).pairs
        = (selectedWatches now uw).map
            (fun w => WatchRevisionsitem.mk w.wid w.current_revision.rid)
    ∧ (∀ w ∈ (filteredWatches now uw).take MAX_NOTIFS_IN_UPDATE_PER_USER,
        getNotified (notify_new_revisions okSend now (pre ++ uw :: post) rows).rows
          w.wid = some (some w.current_revision.rid))
    ∧ (∀ w ∈ (filteredWatches now uw).drop MAX_NOTIFS_IN_UPDATE_PER_USER,
        getNotified (notify_new_revisions okSend now (pre ++ uw :: post) rows).rows
          w.wid = getNotified rows w.wid) := by
  have hrun := notify_run_ok now (pre ++ uw :: post) rows
  have hsel : selectedWatches now uw
      = (filteredWatches now uw).take MAX_NOTIFS_IN_UPDATE_PER_USER := by
    unfold selectedWatches
    rw [if_pos hcount]
  have hselnod : ((selectedWatches now uw).map (fun w => w.wid)).Nodup := by
    rw [hsel]
    exact (filteredWatches_wid_nodup now uw hnodup).sublist
      ((List.take_sublist _ _).map _)
  have hwid_disj : ∀ v ∈ pre ++ post, ∀ p ∈ pairsOf now v,
      ∀ w ∈ uw.watches, p.hw_id ≠ w.wid := by
    intro v hv p hp w hw
    obtain ⟨x, hx, hxp⟩ := List.mem_map.mp hp
    rw [← hxp]
    exact hdisj v hv x (selectedWatches_sub now v x hx) w hw
  have hfiltsub : ∀ w ∈ filteredWatches now uw, w ∈ uw.watches :=
    fun w hw => List.mem_of_mem_filter hw
  refine ⟨by rw [hrun], by rw [hrun, List.map_append, List.map_cons], hsel,
    decide_eq_true hcount, rfl, rfl, ?_, ?_⟩
  · intro w hw
    have hwmem : w ∈ uw.watches :=
      hfiltsub w (List.mem_of_mem_take hw)
    have hq : (pairsOf now uw).find?
        (fun p => p.hw_id == w.wid) = some ⟨w.wid, w.current_revision.rid⟩ := by
      unfold pairsOf
      exact pairs_find_self (selectedWatches now uw) w (by rw [hsel]; exact hw) hselnod
    rw [hrun]
    apply getNotified_fold_marked now w.wid ⟨w.wid, w.current_revision.rid⟩
      pre post uw rows hq
    · intro v hv p hp
      exact hwid_disj v (List.mem_append_right pre hv) p hp w hwmem
    · exact hrows w hwmem
  · intro w hw
    have hwfilt : w ∈ filteredWatches now uw := by
      have := (List.drop_sublist MAX_NOTIFS_IN_UPDATE_PER_USER
        (filteredWatches now uw)).subset
      exact this hw
    have hwmem : w ∈ uw.watches := hfiltsub w hwfilt
    rw [hrun]
    apply getNotified_fold_not_mem
    intro v hv p hp
    rcases List.mem_append.mp hv with hvpre | hvc
    · exact hwid_disj v (List.mem_append_left post hvpre) p hp w hwmem
    · rcases List.mem_cons.mp hvc with hvu | hvpost
      · -- the group is `uw` itself: the pair comes from the take-5 while `w`
        -- is in the drop, and the filtered ids are pairwise distinct
        subst hvu
        obtain ⟨x, hx, hxp⟩ := List.mem_map.mp hp
        subst hxp
        intro hcontra
        have hcontra2 : x.wid = w.wid := hcontra
        have hnodf := filteredWatches_wid_nodup now v hnodup
        rw [← List.take_append_drop MAX_NOTIFS_IN_UPDATE_PER_USER
          (filteredWatches now v), List.map_append] at hnodf
        have hdisj2 := List.disjoint_of_nodup_append hnodf
        have hxtake : x.wid ∈ (List.take MAX_NOTIFS_IN_UPDATE_PER_USER
            (filteredWatches now v)).map (fun w => w.wid) := by
          apply List.mem_map_of_mem
          rw [← hsel]
          exact hx
        have hwdrop : w.wid ∈ (List.drop MAX_NOTIFS_IN_UPDATE_PER_USER
            (filteredWatches now v)).map (fun w => w.wid) :=
          List.mem_map_of_mem _ hw
        rw [hcontra2] at hxtake
        exact hdisj2 hxtake hwdrop
      · exact hwid_disj v (List.mem_append_right pre hvpost) p hp w hwmem

/-- C2 witness: one user with eight pending watches, all sends succeeding. -/
theorem c2_witness :
    (MAX_NOTIFS_IN_UPDATE_PER_USER < (filteredWatches 100 c2Group).length
      ∧ (c2Group.watches.map (fun w => w.wid)).Nodup
      ∧ (∀ w ∈ c2Group.watches,
          ((c2Rows.find? (fun r => r.wid == w.wid))).isSome = true))
    ∧ ((notify_new_revisions okSend 100 ([] ++ c2Group :: []) c2Rows).raised = false
      ∧ (notify_new_revisions okSend 100 ([] ++ c2Group :: []) c2Rows).logs
          = [].map (okLog 100) ++ okLog 100 c2Group :: [].map (okLog 100)
      ∧ selectedWatches 100 c2Group
          = (filteredWatches 100 c2Group).take MAX_NOTIFS_IN_UPDATE_PER_USER
      ∧ (okLog 100 c2Group).alerted = true
      ∧ (okLog 100 c2Group).sent
          = updatedHeaderMsg (selectedWatches 100 c2Group)
            :: (selectedWatches 100 c2Group).map (updatedEntryMsg c2Group.user)
      ∧ (okLog 100 c2Group).pairs
          = (selectedWatches 100 c2Group).map
              (fun w => WatchRevisionsitem.mk w.wid w.current_revision.rid)
      ∧ (∀ w ∈ (filteredWatches 100 c2Group).take MAX_NOTIFS_IN_UPDATE_PER_USER,
          getNotified (notify_new_revisions okSend 100 ([] ++ c2Group :: []) c2Rows).rows
            w.wid = some (some w.current_revision.rid))
      ∧ (∀ w ∈ (filteredWatches 100 c2Group).drop MAX_NOTIFS_IN_UPDATE_PER_USER,
          getNotified (notify_new_revisions okSend 100 ([] ++ c2Group :: []) c2Rows).rows
            w.wid = getNotified c2Rows w.wid)) :=
  ⟨⟨by decide, by decide, by decide⟩,
   c2_batch_cap_first_five 100 [] [] c2Group c2Rows (by decide) (by decide)
     (fun v hv => absurd hv (List.not_mem_nil v)) (by decide)⟩

/-- C10: the composed price string is exactly "Consultar" (which contains no
digit) when the revision's price is zero, and otherwise is the
thousands-separated amount followed by the currency code (bold-wrapped when
requested), so a zero-price listing never displays a numeric price. -/
theorem c10_price_str_zero_is_consultar (r : RevisionRef) (b : Bool) :
    (r.price = 0 →
      price_str r b = "Consultar" ∧ ∀ c ∈ "Consultar".data, c.isDigit = false)
    ∧ (r.price ≠ 0 → price_str r b =
        (if b then
          "**" ++ ("$ " ++ formatThousands r.price ++ " " ++ r.currency.code) ++ "**"
         else "$ " ++ formatThousands r.price ++ " " ++ r.currency.code)) := by
  constructor
  · intro h
    refine ⟨by simp [price_str, h], by decide⟩
  · intro h
    have hb : (r.price == 0) = false := by simpa using h
    simp only [price_str, hb, Bool.false_eq_true, if_false]

/-- C10 witness: concrete zero-price and nonzero-price revisions. -/
theorem c10_witness :
    ((0 : Nat) = 0 ∧ price_str ⟨1, 0, Currency.USD⟩ true = "Consultar")
    ∧ ((1500 : Nat) ≠ 0 ∧ price_str ⟨2, 1500, Currency.USD⟩ false = "$ 1,500 USD") := by
  constructor
  · exact ⟨rfl, ((c10_price_str_zero_is_consultar ⟨1, 0, Currency.USD⟩ true).1 rfl).1⟩
  · refine ⟨by decide, ?_⟩
    have h := (c10_price_str_zero_is_consultar ⟨2, 1500, Currency.USD⟩ false).2 (by decide)
    rw [h]
    decide

/-- C9: every updated-housing notification entry reports the old revision's
price string first and the current revision's price string second, and at the
spec's example revisions (100 USD then 90 USD) those strings are "$ 100 USD"
and "**$ 90 USD**". -/
theorem c9_entry_reports_old_then_new :
    (∀ (u : UserRec) (hw : WatchItem), ∃ pre post,
      updatedEntryMsg u hw =
        pre ++ price_str hw.old_revision false ++ " → "
          ++ price_str hw.current_revision true ++ post)
    ∧ price_str ⟨1, 100, Currency.USD⟩ false = "$ 100 USD"
    ∧ price_str ⟨2, 90, Currency.USD⟩ true = "**$ 90 USD**" := by
  refine ⟨?_, by decide, by decide⟩
  intro u hw
  obtain ⟨suf, hsuf⟩ := bren_special_alert_append _ hw.housing u
  refine ⟨"🔽 \"" ++ sanitize_str_for_tg hw.housing.title ++ "\"" ++ "\n",
    "\n" ++ last_modified_dt_str hw.housing.post_modified_at
      ++ "\n[publicación](" ++ hw.housing.url ++ ") | [búsqueda]("
      ++ hw.search_url ++ ")" ++ suf, ?_⟩
  rw [updatedEntryMsg, hsuf]
  simp [String.append_assoc]

/-- C4: at the concrete blocked-recipient run, the dispatcher reports the user
blocked on the very first message, so nothing is delivered (`sent = []`) and
the run continues (`raised = false`), yet the notifier still marks the watch
as notified: its row moves from revision 5 to revision 10 instead of keeping
its pre-run value. -/
theorem c4_blocked_user_still_marked :
    notify_new_revisions blockedSend 100 [c4Group] [⟨1, some 5⟩]
      = ⟨[⟨1, some 10⟩], [⟨7, false, [], [⟨1, 10⟩]⟩], false⟩ := by
  rfl

/-- C3 counterexample: with two filtered searches where search 1's fetch
succeeds and search 2's fails, `etl_housing_for_all_searches` raises the
aggregate error to its caller even though one unit succeeded, contradicting
"raises as failed only when ALL units failed". -/
theorem c3_counterexample :
    c3Fetch c3Search1 = .ok []
    ∧ c3Fetch c3Search2 = .error "boom"
    ∧ filterSearches 100 none [c3Search1, c3Search2] = [c3Search1, c3Search2]
    ∧ (etl_housing_for_all_searches c3Fetch 100 none [c3Search1, c3Search2]
        ⟨[], [], 0⟩).2 = some ⟨"1 errors during ETL", ["boom"]⟩ := by
  exact ⟨rfl, rfl, by decide, by rfl⟩

/-- C8: the ETL filter skips every search created less than 10 minutes ago
and, when a refresh interval is given, every search refreshed more recently
than now minus that interval; and the notifier's per-user selection excludes
every watch whose search is younger than 10 minutes. -/
theorem c8_grace_windows (now : Int) :
    (∀ (sd : Option Int) (searches : List SearchRow) (s : SearchRow),
        now - gracePeriodMinutes < s.created_at →
        s ∉ filterSearches now sd searches)
    ∧ (∀ (d : Int) (searches : List SearchRow) (s : SearchRow) (t : Int),
        s.last_search_at = some t → now - d < t →
        s ∉ filterSearches now (some d) searches)
    ∧ (∀ (uw : UserWatches) (w : WatchItem),
        now - gracePeriodMinutes < w.search_created_at →
        w ∉ selectedWatches now uw) := by
  have hbase : ∀ (searches : List SearchRow) (s : SearchRow),
      now - gracePeriodMinutes < s.created_at →
      s ∉ searches.filter (fun s => s.created_at < now - gracePeriodMinutes) := by
    intro searches s hlt hmem
    have hpred := List.of_mem_filter hmem
    simp only [decide_eq_true_eq] at hpred
    omega
  refine ⟨?_, ?_, ?_⟩
  · intro sd searches s hlt hmem
    cases sd with
    | none => exact hbase searches s hlt hmem
    | some d =>
      exact hbase searches s hlt (List.mem_of_mem_filter hmem)
  · intro d searches s t hlast hlt hmem
    have hpred := List.of_mem_filter hmem
    rw [hlast] at hpred
    simp only [decide_eq_true_eq] at hpred
    omega
  · intro uw w hlt hmem
    have hmemf : w ∈ filteredWatches now uw := by
      unfold selectedWatches at hmem
      by_cases hc : (filteredWatches now uw).length > MAX_NOTIFS_IN_UPDATE_PER_USER
      · rw [if_pos hc] at hmem
        exact List.mem_of_mem_take hmem
      · rwa [if_neg hc] at hmem
    have hpred := List.of_mem_filter hmemf
    simp only [decide_eq_true_eq] at hpred
    omega

/-- C8 witness: a search created 5 minutes ago is filtered out; a search
refreshed 1 minute ago is filtered out under a 30-minute delta; a watch whose
search is 5 minutes old is excluded from the notifier's selection. -/
theorem c8_witness :
    ((100 : Int) - gracePeriodMinutes < 95
      ∧ (⟨1, .zonaprop, "u", 95, none, 1⟩ : SearchRow)
          ∉ filterSearches 100 none [⟨1, .zonaprop, "u", 95, none, 1⟩])
    ∧ ((⟨2, .zonaprop, "u", 0, some 99, 1⟩ : SearchRow).last_search_at = some 99
      ∧ (100 : Int) - 30 < 99
      ∧ (⟨2, .zonaprop, "u", 0, some 99, 1⟩ : SearchRow)
          ∉ filterSearches 100 (some 30) [⟨2, .zonaprop, "u", 0, some 99, 1⟩])
    ∧ ((100 : Int) - gracePeriodMinutes < 95
      ∧ (⟨1, 95, "su", ⟨.zonaprop, none, "hu", none, none, none⟩,
            ⟨1, 1, .USD⟩, ⟨2, 2, .USD⟩⟩ : WatchItem)
          ∉ selectedWatches 100
              ⟨⟨3, none⟩, [⟨1, 95, "su", ⟨.zonaprop, none, "hu", none, none, none⟩,
                ⟨1, 1, .USD⟩, ⟨2, 2, .USD⟩⟩]⟩) := by
  refine ⟨⟨by decide, (c8_grace_windows 100).1 none _ _ (by decide)⟩,
    ⟨rfl, by decide, (c8_grace_windows 100).2.1 30 _ _ 99 rfl (by decide)⟩,
    ⟨by decide, (c8_grace_windows 100).2.2 _ _ (by decide)⟩⟩

/-- C1 witness: the idempotence conclusions at a concrete one-post batch over
an empty store. -/
theorem c1_witness :
    (store_housing_posts (store_housing_posts ⟨[], [], 0⟩
        [⟨.zonaprop, "a", "u1", "t1", 1, .USD⟩] ⟨1, .zonaprop, "u", 0, none, 1⟩ 0
        false).store [⟨.zonaprop, "a", "u1", "t1", 1, .USD⟩]
        ⟨1, .zonaprop, "u", 0, none, 1⟩ 0 false).store.housings
      = (store_housing_posts ⟨[], [], 0⟩ [⟨.zonaprop, "a", "u1", "t1", 1, .USD⟩]
          ⟨1, .zonaprop, "u", 0, none, 1⟩ 0 false).store.housings
    ∧ totalRevisions (store_housing_posts (store_housing_posts ⟨[], [], 0⟩
        [⟨.zonaprop, "a", "u1", "t1", 1, .USD⟩] ⟨1, .zonaprop, "u", 0, none, 1⟩ 0
        false).store [⟨.zonaprop, "a", "u1", "t1", 1, .USD⟩]
        ⟨1, .zonaprop, "u", 0, none, 1⟩ 0 false).store.housings
      = totalRevisions (store_housing_posts ⟨[], [], 0⟩
          [⟨.zonaprop, "a", "u1", "t1", 1, .USD⟩]
          ⟨1, .zonaprop, "u", 0, none, 1⟩ 0 false).store.housings
    ∧ (∀ u ∈ (store_housing_posts (store_housing_posts ⟨[], [], 0⟩
        [⟨.zonaprop, "a", "u1", "t1", 1, .USD⟩] ⟨1, .zonaprop, "u", 0, none, 1⟩ 0
        false).store [⟨.zonaprop, "a", "u1", "t1", 1, .USD⟩]
        ⟨1, .zonaprop, "u", 0, none, 1⟩ 0 false).results,
        u.is_new = false ∧ u.added_revision = false)
    ∧ (store_housing_posts (store_housing_posts ⟨[], [], 0⟩
        [⟨.zonaprop, "a", "u1", "t1", 1, .USD⟩] ⟨1, .zonaprop, "u", 0, none, 1⟩ 0
        false).store [⟨.zonaprop, "a", "u1", "t1", 1, .USD⟩]
        ⟨1, .zonaprop, "u", 0, none, 1⟩ 0 false).n_new_stuff = 0 :=
  c1_second_run_adds_no_revisions ⟨[], [], 0⟩
    [⟨.zonaprop, "a", "u1", "t1", 1, .USD⟩] ⟨1, .zonaprop, "u", 0, none, 1⟩ 0 false

/-- C5: on a batch with duplicate post ids, `store_housing_posts` records the
warning and upserts exactly the deduplicated batch, which holds exactly one
post per post id — namely the last occurrence in batch order (last value
wins). -/
theorem c5_dedup_last_wins (posts : List HousingPost)
    (hdup : ¬ (postIds posts).Nodup) (st : Store) (search : SearchRow)
    (t : Int) (an : Bool) :
    (store_housing_posts st posts search t an).warned = true
    ∧ (store_housing_posts st posts search t an).results
        = (upsert_housing_from_search st (dedupPosts posts)).2
    ∧ (postIds (dedupPosts posts)).Nodup
    ∧ ∀ i, findById (dedupPosts posts) i = lastOcc posts i := by
  have hw : dupWarning posts = true := (dupWarning_iff posts).mpr hdup
  refine ⟨?_, ?_, dedupPosts_nodup posts, fun i => findById_dedupPosts posts i⟩
  · simp [store_housing_posts, hw]
  · simp [store_housing_posts, hw]

/-- C5 witness: two posts share post id "a" with different prices. -/
theorem c5_witness :
    (¬ (postIds c5Posts).Nodup)
    ∧ ((store_housing_posts ⟨[], [], 0⟩ c5Posts ⟨1, .zonaprop, "u", 0, none, 1⟩ 0
          false).warned = true
      ∧ (store_housing_posts ⟨[], [], 0⟩ c5Posts ⟨1, .zonaprop, "u", 0, none, 1⟩ 0
          false).results
          = (upsert_housing_from_search ⟨[], [], 0⟩ (dedupPosts c5Posts)).2
      ∧ (postIds (dedupPosts c5Posts)).Nodup
      ∧ ∀ i, findById (dedupPosts c5Posts) i = lastOcc c5Posts i) :=
  ⟨by decide,
   c5_dedup_last_wins c5Posts (by decide) ⟨[], [], 0⟩ ⟨1, .zonaprop, "u", 0, none, 1⟩ 0 false⟩

/-- C7: a search whose `last_search_at` is null has its first fetch stored
with `as_notified = true`, so — the search having no watches yet — every
resulting watch of the search is seeded with
`notified_revision_id = current_revision_id` (not pending, hence no backlog
notification); the initial store performed at search creation
(`create_search_initial_store`, `as_notified := true`) seeds identically. -/
theorem c7_first_fetch_seeded_as_notified
    (fetch : SearchRow → Except String (List HousingPost)) (now : Int)
    (search : SearchRow) (st : Store) (posts : List HousingPost)
    (h1 : search.last_search_at = none)
    (h2 : fetch search = .ok posts)
    (h3 : ∀ w ∈ st.watches, w.search_id ≠ search.id) :
    etl_housing_for_search fetch now search st
      = .ok (store_housing_posts st posts search now true)
    ∧ (∀ w ∈ (store_housing_posts st posts search now true).store.watches,
        w.search_id = search.id →
        w.notified_revision_id = some w.current_revision_id)
    ∧ (∀ w ∈ (create_search_initial_store st posts search now).store.watches,
        w.search_id = search.id →
        w.notified_revision_id = some w.current_revision_id) := by
  have hmain : ∀ w ∈ (store_housing_posts st posts search now true).store.watches,
      w.search_id = search.id → w.notified_revision_id = some w.current_revision_id := by
    have hw : (store_housing_posts st posts search now true).store.watches
        = upsert_watches_for_search st.watches search.id
            (upsertAllResults st (if dupWarning posts then dedupPosts posts else posts))
            now true := by
      simp only [store_housing_posts, upsert_housing_from_search_decomp,
        upsertAllStore_watches]
    rw [hw]
    apply upsert_watches_seed search.id now
      (upsertAllResults st (if dupWarning posts then dedupPosts posts else posts))
      st.watches []
    · rw [List.nil_append, upsertAllResults_postIds]
      exact storedBatch_nodup posts
    · intro w hw' hsid
      exact absurd hsid (h3 w hw')
  refine ⟨?_, hmain, hmain⟩
  simp [etl_housing_for_search, h2, h1]

/-- C7 witness: a never-run search over an empty store, fetching one post. -/
theorem c7_witness :
    ((⟨1, .zonaprop, "u", 0, none, 9⟩ : SearchRow).last_search_at = none
      ∧ (fun _ : SearchRow =>
          (Except.ok [⟨.zonaprop, "a", "pu", "pt", 5, .USD⟩]
            : Except String (List HousingPost))) ⟨1, .zonaprop, "u", 0, none, 9⟩
          = .ok [⟨.zonaprop, "a", "pu", "pt", 5, .USD⟩]
      ∧ ∀ w ∈ (⟨[], [], 0⟩ : Store).watches, w.search_id ≠ 1)
    ∧ (etl_housing_for_search
        (fun _ : SearchRow =>
          (Except.ok [⟨.zonaprop, "a", "pu", "pt", 5, .USD⟩]
            : Except String (List HousingPost)))
        3 ⟨1, .zonaprop, "u", 0, none, 9⟩ ⟨[], [], 0⟩
        = .ok (store_housing_posts ⟨[], [], 0⟩ [⟨.zonaprop, "a", "pu", "pt", 5, .USD⟩]
            ⟨1, .zonaprop, "u", 0, none, 9⟩ 3 true)
      ∧ (∀ w ∈ (store_housing_posts ⟨[], [], 0⟩ [⟨.zonaprop, "a", "pu", "pt", 5, .USD⟩]
            ⟨1, .zonaprop, "u", 0, none, 9⟩ 3 true).store.watches,
          w.search_id = (⟨1, .zonaprop, "u", 0, none, 9⟩ : SearchRow).id →
          w.notified_revision_id = some w.current_revision_id)
      ∧ (∀ w ∈ (create_search_initial_store ⟨[], [], 0⟩
            [⟨.zonaprop, "a", "pu", "pt", 5, .USD⟩]
            ⟨1, .zonaprop, "u", 0, none, 9⟩ 3).store.watches,
          w.search_id = (⟨1, .zonaprop, "u", 0, none, 9⟩ : SearchRow).id →
          w.notified_revision_id = some w.current_revision_id)) :=
  ⟨⟨rfl, rfl, fun w hw => absurd hw (List.not_mem_nil w)⟩,
   c7_first_fetch_seeded_as_notified
     (fun _ : SearchRow =>
       (Except.ok [⟨.zonaprop, "a", "pu", "pt", 5, .USD⟩]
         : Except String (List HousingPost)))
     3 ⟨1, .zonaprop, "u", 0, none, 9⟩ ⟨[], [], 0⟩
     [⟨.zonaprop, "a", "pu", "pt", 5, .USD⟩]
     rfl rfl (fun w hw => absurd hw (List.not_mem_nil w))⟩

/-- The ETL loop splits: the store and counters are folded over the
fetch-successful searches only, and each fetch-failed search appends exactly
its error message. -/
theorem etlLoop_decomp (fetch : SearchRow → Except String (List HousingPost)) (now : Int) :
    ∀ (searches : List SearchRow) (acc : EtlOutcome),
      searches.foldl (etlStep fetch now) acc =
        ⟨((searches.filter (fun s => fetchOk fetch s)).foldl (etlSuccessStep fetch now)
            (acc.store, acc.n_added_per_user)).1,
         ((searches.filter (fun s => fetchOk fetch s)).foldl (etlSuccessStep fetch now)
            (acc.store, acc.n_added_per_user)).2,
         acc.errors ++ (searches.filter (fun s => !(fetchOk fetch s))).map
            (fetchErrMsg fetch)⟩ := by
  intro searches
  induction searches with
  | nil =>
    intro acc
    obtain ⟨st, n, e⟩ := acc
    simp
  | cons s ss ih =>
    intro acc
    cases hf : fetch s with
    | ok posts =>
      have hok : fetchOk fetch s = true := by simp [fetchOk, hf]
      have hstep : etlStep fetch now acc s =
          ⟨(store_housing_posts acc.store posts s now s.last_search_at.isNone).store,
           addCount acc.n_added_per_user s.user_telegram_id
             (store_housing_posts acc.store posts s now s.last_search_at.isNone).n_new_stuff,
           acc.errors⟩ := by
        simp [etlStep, etl_housing_for_search, hf]
      have hsucc : etlSuccessStep fetch now (acc.store, acc.n_added_per_user) s =
          ((store_housing_posts acc.store posts s now s.last_search_at.isNone).store,
           addCount acc.n_added_per_user s.user_telegram_id
             (store_housing_posts acc.store posts s now s.last_search_at.isNone).n_new_stuff) := by
        simp [etlSuccessStep, hf]
      rw [List.foldl_cons, hstep, ih]
      simp [List.filter_cons, hok, hsucc]
    | error e =>
      have hok : fetchOk fetch s = false := by simp [fetchOk, hf]
      have herr : fetchErrMsg fetch s = e := by simp [fetchErrMsg, hf]
      have hstep : etlStep fetch now acc s =
          ⟨acc.store, acc.n_added_per_user, acc.errors ++ [e]⟩ := by
        simp [etlStep, etl_housing_for_search, hf]
      rw [List.foldl_cons, hstep, ih]
      simp [List.filter_cons, hok, herr]

/-- C6: the ETL loop is failure-isolated: its final store and per-user
counters are exactly the per-search processing folded over the
fetch-successful searches (so every non-failing search is processed to
completion), and its error aggregate carries exactly one entry per
fetch-failed search, in order. -/
theorem c6_partial_failure_isolation (fetch : SearchRow → Except String (List HousingPost))
    (now : Int) (st : Store) (searches : List SearchRow) :
    etlLoop fetch now st searches =
      ⟨((searches.filter (fun s => fetchOk fetch s)).foldl (etlSuccessStep fetch now)
          (st, [])).1,
       ((searches.filter (fun s => fetchOk fetch s)).foldl (etlSuccessStep fetch now)
          (st, [])).2,
       (searches.filter (fun s => !(fetchOk fetch s))).map (fetchErrMsg fetch)⟩ := by
  have h := etlLoop_decomp fetch now searches ⟨st, [], []⟩
  simpa [etlLoop] using h

/-- C3 amended: the run-level ETL entry point raises the aggregate error
(listing one entry per failed Search) whenever at least one filtered Search
unit failed — even when other units succeeded — and returns without raising
exactly when no filtered unit failed. -/
theorem c3_amended_raises_iff_any_unit_failed
    (fetch : SearchRow → Except String (List HousingPost)) (now : Int)
    (sd : Option Int) (searches : List SearchRow) (st : Store) :
    (etl_housing_for_all_searches fetch now sd searches st).2 =
      (if ((filterSearches now sd searches).filter (fun s => !(fetchOk fetch s))).isEmpty
       then none
       else some ⟨toString ((filterSearches now sd searches).filter
                    (fun s => !(fetchOk fetch s))).length ++ " errors during ETL",
                  ((filterSearches now sd searches).filter
                    (fun s => !(fetchOk fetch s))).map (fetchErrMsg fetch)⟩) := by
  have h := etlLoop_decomp fetch now (filterSearches now sd searches) ⟨st, [], []⟩
  unfold etl_housing_for_all_searches etlLoop
  rw [h]
  cases hfl : (filterSearches now sd searches).filter (fun s => !(fetchOk fetch s)) with
  | nil => simp
  | cons a l => simp

end QM
